import Mathlib

/-!
Verification of the ingress control plane of switch.fun: the resource
reconciler (resetIngresses), the ingress provisioner (createIngress) and
the LiveKit webhook state synchronizer (POST in
src/app/api/webhooks/livekit/route.ts), shallowly embedded from the
TypeScript source. Remote provider calls are modelled by explicit state
passing; a deletion outcome oracle (String to Bool) models whether a
given provider delete RPC succeeds; a thrown JS error is modelled by
Option / Except and by an aborted fold, matching the await-in-loop
semantics of the source.
-/

namespace SwitchFun

/-- A remote ingress resource as returned by ingressClient.listIngress:
the fields of the LiveKit IngressInfo proto that resetIngresses reads.
Proto3 string fields default to the empty string, so a missing
ingressId is the empty string (JS falsy). -/
structure IngressInfo where
  ingressId : String
  roomName : String
  participantIdentity : String
deriving DecidableEq, Repr

/-- A remote room resource as returned by roomService.listRooms. -/
structure Room where
  name : String
deriving DecidableEq, Repr

/-- The first loop of resetIngresses (src/actions/user.ts lines 453 to 465):
for each listed ingress, if its ingressId is truthy and it is owned by the
host (roomName or participantIdentity equals hostIdentity, exact string
equality) the code awaits deleteIngress. `delOk` tells whether that RPC
succeeds; a rejected await propagates out of the loop, so on the first
failure the sweep stops. Returns the resources on which deleteIngress was
invoked, in order, and whether the loop ran to completion. -/
def ingressSweep (hostIdentity : String) (delOk : String → Bool) :
    List IngressInfo → List IngressInfo × Bool
  | [] => ([], true)
  | i :: rest =>
    if i.ingressId ≠ "" then
      if i.roomName = hostIdentity ∨ i.participantIdentity = hostIdentity then
        if delOk i.ingressId then
          let t := ingressSweep hostIdentity delOk rest
          (i :: t.1, t.2)
        else ([i], false)
      else ingressSweep hostIdentity delOk rest
    else ingressSweep hostIdentity delOk rest

/-- The second loop of resetIngresses (lines 467 to 475): delete each
listed room whose name equals hostIdentity; same abort-on-rejection
semantics as the ingress loop. -/
def roomSweep (hostIdentity : String) (delOk : String → Bool) :
    List Room → List Room × Bool
  | [] => ([], true)
  | r :: rest =>
    if r.name = hostIdentity then
      if delOk r.name then
        let t := roomSweep hostIdentity delOk rest
        (r :: t.1, t.2)
      else ([r], false)
    else roomSweep hostIdentity delOk rest

/-- Outcome of one resetIngresses call: the ingresses and rooms on which a
provider delete was invoked, and whether the whole function returned
without throwing. -/
structure ResetOutcome where
  deletedIngresses : List IngressInfo
  deletedRooms : List Room
  success : Bool
deriving DecidableEq, Repr

/-- resetIngresses (src/actions/user.ts lines 445 to 476) applied to the
listings returned by the provider: sweep the listed ingresses, then, if
that loop completed, sweep the listed rooms. An error thrown in the
ingress loop propagates, so the room loop never runs in that case. -/
def resetIngresses (hostIdentity : String) (delIngressOk delRoomOk : String → Bool)
    (ingresses : List IngressInfo) (rooms : List Room) : ResetOutcome :=
  let si := ingressSweep hostIdentity delIngressOk ingresses
  if si.2 then
    let sr := roomSweep hostIdentity delRoomOk rooms
    ⟨si.1, sr.1, sr.2⟩
  else ⟨si.1, [], false⟩

theorem ingressSweep_owned (hostIdentity : String) (delOk : String → Bool)
    (l : List IngressInfo) :
    ∀ i ∈ (ingressSweep hostIdentity delOk l).1,
      i.roomName = hostIdentity ∨ i.participantIdentity = hostIdentity := by
  induction l with
  | nil => intro i hi; simp [ingressSweep] at hi
  | cons a rest ih =>
    intro i hi
    by_cases hid : a.ingressId ≠ ""
    · by_cases hown : a.roomName = hostIdentity ∨ a.participantIdentity = hostIdentity
      · by_cases hok : delOk a.ingressId
        · simp only [ingressSweep, if_pos hid, if_pos hown, if_pos hok,
            List.mem_cons] at hi
          rcases hi with h | h
          · subst h; exact hown
          · exact ih i h
        · simp only [ingressSweep, if_pos hid, if_pos hown, if_neg hok,
            List.mem_singleton] at hi
          subst hi; exact hown
      · simp only [ingressSweep, if_pos hid, if_neg hown] at hi
        exact ih i hi
    · simp only [ingressSweep, if_neg hid] at hi
      exact ih i hi

theorem roomSweep_named (hostIdentity : String) (delOk : String → Bool)
    (l : List Room) :
    ∀ r ∈ (roomSweep hostIdentity delOk l).1, r.name = hostIdentity := by
  induction l with
  | nil => intro r hr; simp [roomSweep] at hr
  | cons a rest ih =>
    intro r hr
    by_cases hn : a.name = hostIdentity
    · by_cases hok : delOk a.name
      · simp only [roomSweep, if_pos hn, if_pos hok, List.mem_cons] at hr
        rcases hr with h | h
        · subst h; exact hn
        · exact ih r h
      · simp only [roomSweep, if_pos hn, if_neg hok, List.mem_singleton] at hr
        subst hr; exact hn
    · simp only [roomSweep, if_neg hn] at hr
      exact ih r hr

/-- Claim C1: for every identity and every pair of listings returned by the
provider, resetIngresses never invokes a delete on an ingress whose room
name and participant identity both differ from the identity argument, and
never invokes a delete on a room whose name differs from the identity
argument; ownership is exact string equality. -/
theorem reconcile_deletes_only_owned (hostIdentity : String)
    (delIngressOk delRoomOk : String → Bool)
    (ingresses : List IngressInfo) (rooms : List Room) :
    (∀ i ∈ (resetIngresses hostIdentity delIngressOk delRoomOk ingresses rooms).deletedIngresses,
        i.roomName = hostIdentity ∨ i.participantIdentity = hostIdentity) ∧
    (∀ r ∈ (resetIngresses hostIdentity delIngressOk delRoomOk ingresses rooms).deletedRooms,
        r.name = hostIdentity) := by
  unfold resetIngresses
  by_cases hs : (ingressSweep hostIdentity delIngressOk ingresses).2
  · simp only [if_pos hs]
    exact ⟨ingressSweep_owned hostIdentity delIngressOk ingresses,
      roomSweep_named hostIdentity delRoomOk rooms⟩
  · simp only [if_neg hs]
    exact ⟨ingressSweep_owned hostIdentity delIngressOk ingresses,
      by intro r hr; simp at hr⟩

/-- Witness for C1: a concrete run with owned resources and decoy
resources, instantiating the theorem at a deleted ingress and at a
deleted room. -/
theorem reconcile_deletes_only_owned_witness :
    (IngressInfo.mk "in1" "alice" "alice").roomName = "alice" ∨
      (IngressInfo.mk "in1" "alice" "alice").participantIdentity = "alice" :=
  (reconcile_deletes_only_owned "alice" (fun _ => true) (fun _ => true)
      [⟨"in1", "alice", "alice"⟩, ⟨"in2", "alicedecoy", "bob"⟩]
      [⟨"alice"⟩, ⟨"alicedecoy"⟩]).1
    ⟨"in1", "alice", "alice"⟩ (by decide)

/-- Counterexample to claim C2: with two ingresses both owned by alice and
the provider rejecting the first delete, the second ingress never receives
a deletion attempt, so a failure deleting one resource does prevent
deletion attempts on the remaining resources. -/
theorem reconcile_sweep_not_best_effort_cex :
    (ingressSweep "alice" (fun id => id != "in1")
        [⟨"in1", "alice", "alice"⟩, ⟨"in2", "alice", "alice"⟩]).2 = false ∧
    (IngressInfo.mk "in2" "alice" "alice") ∉
      (ingressSweep "alice" (fun id => id != "in1")
        [⟨"in1", "alice", "alice"⟩, ⟨"in2", "alice", "alice"⟩]).1 := by
  constructor
  · rfl
  · decide

/-- Claim C2 as amended: deletion is not attempted independently; the
sweep inherits the first rejected await. If the deletes of the earlier
listed ingresses all succeed and the next listed one is owned, has a truthy id,
and its delete fails, then resetIngresses aborts there: the failing
resource is the last deletion attempted and no later listed resource
receives a deletion attempt. -/
theorem reconcile_abort_on_failure (hostIdentity : String) (delOk : String → Bool)
    (l1 l2 : List IngressInfo) (i : IngressInfo)
    (h1 : (ingressSweep hostIdentity delOk l1).2 = true)
    (h2 : i.ingressId ≠ "")
    (h3 : i.roomName = hostIdentity ∨ i.participantIdentity = hostIdentity)
    (h4 : delOk i.ingressId = false) :
    ingressSweep hostIdentity delOk (l1 ++ i :: l2) =
      ((ingressSweep hostIdentity delOk l1).1 ++ [i], false) := by
  induction l1 with
  | nil =>
    simp [ingressSweep, if_pos h2, if_pos h3, h4]
  | cons a rest ih =>
    rw [List.cons_append]
    by_cases hid : a.ingressId ≠ ""
    · by_cases hown : a.roomName = hostIdentity ∨ a.participantIdentity = hostIdentity
      · by_cases hok : delOk a.ingressId
        · simp only [ingressSweep, if_pos hid, if_pos hown, if_pos hok,
            List.cons_append] at h1 ⊢
          rw [ih h1]
        · exfalso
          simp only [ingressSweep, if_pos hid, if_pos hown, if_neg hok] at h1
          exact absurd h1 (by decide)
      · simp only [ingressSweep, if_pos hid, if_neg hown] at h1 ⊢
        exact ih h1
    · simp only [ingressSweep, if_neg hid] at h1 ⊢
      exact ih h1

/-- Witness for the amended C2: one successful delete, then a failing
owned ingress, aborting the sweep. -/
theorem reconcile_abort_on_failure_witness :
    ingressSweep "alice" (fun id => id != "in2")
        ([⟨"in1", "alice", "alice"⟩] ++ (⟨"in2", "alice", "alice"⟩ : IngressInfo) ::
          [⟨"in3", "alice", "alice"⟩]) =
      ((ingressSweep "alice" (fun id => id != "in2") [⟨"in1", "alice", "alice"⟩]).1
        ++ [⟨"in2", "alice", "alice"⟩], false) :=
  reconcile_abort_on_failure "alice" (fun id => id != "in2")
    [⟨"in1", "alice", "alice"⟩] [⟨"in3", "alice", "alice"⟩]
    ⟨"in2", "alice", "alice"⟩ (by decide) (by decide) (by decide) (by decide)

/-- The persisted Stream record (Prisma model), with the fields this core
reads or writes plus the other scalar fields visible in the repository
(src/unnamed/part_003), which the claims about frame conditions need. -/
structure StreamRecord where
  id : String
  userId : String
  name : String
  ingressId : Option String
  serverUrl : Option String
  streamKey : Option String
  isLive : Bool
  isChatEnabled : Bool
  isChatDelayed : Bool
  isChatFollowersOnly : Bool
deriving DecidableEq, Repr

/-- Prisma db.stream.update with a unique where clause on ingressId:
finds the record whose ingressId equals the given id and applies the
field assignment; returns none when no record matches, modelling the
P2025 error Prisma throws in that case (the repository itself handles
P2025 in createIngress, confirming this semantics). Returns the new table
and the updated record. -/
def updateStreamByIngressId (iid : String) (f : StreamRecord → StreamRecord) :
    List StreamRecord → Option (List StreamRecord × StreamRecord)
  | [] => none
  | r :: rest =>
    if r.ingressId = some iid then some (f r :: rest, f r)
    else (updateStreamByIngressId iid f rest).map (fun t => (r :: t.1, t.2))

/-- Lookup of the record a webhook for the given ingress id targets. -/
def findStreamByIngressId (iid : String) (db : List StreamRecord) :
    Option StreamRecord :=
  db.find? (fun r => r.ingressId = some iid)

/-- The ingressInfo part of a verified LiveKit webhook event, as read by
the route (only ingressId is used for the database update). -/
structure WebhookIngressInfo where
  ingressId : String
deriving DecidableEq, Repr

/-- A verified webhook event: the event kind string and the optional
ingressInfo payload. -/
structure WebhookEvent where
  event : String
  ingressInfo : Option WebhookIngressInfo
deriving DecidableEq, Repr

/-- POST of src/app/api/webhooks/livekit/route.ts. Inputs: the
Authorization header (none when absent), the result of
receiver.receive(body, authorization) (none when the verifier throws on a
bad signature or malformed body), and the stream table. Output: HTTP
status and the new table. A missing header returns 400 before any
verification or database access; any thrown error is caught and mapped to
500; an update with no ingressInfo (undefined unique key) or no matching
record throws inside the try block and is caught the same way; otherwise
the handler falls through to the final 200. -/
def POST (authorization : Option String) (verified : Option WebhookEvent)
    (db : List StreamRecord) : Nat × List StreamRecord :=
  match authorization with
  | none => (400, db)
  | some _ =>
    match verified with
    | none => (500, db)
    | some event =>
      if event.event = "ingress_started" then
        match event.ingressInfo with
        | none => (500, db)
        | some info =>
          match updateStreamByIngressId info.ingressId
              (fun r => { r with isLive := true }) db with
          | none => (500, db)
          | some t => (200, t.1)
      else if event.event = "ingress_ended" then
        match event.ingressInfo with
        | none => (500, db)
        | some info =>
          match updateStreamByIngressId info.ingressId
              (fun r => { r with isLive := false }) db with
          | none => (500, db)
          | some t => (200, t.1)
      else (200, db)

/-- Claim C7: a request with an absent Authorization header gets HTTP 400
and the stream table is untouched, whatever the body holds. -/
theorem handle_missing_auth_400 (verified : Option WebhookEvent)
    (db : List StreamRecord) :
    POST none verified db = (400, db) := rfl

/-- Claim C8: when the verifier throws (invalid signature or malformed
body), the handler returns HTTP 500, not 400, and the stream table is
untouched. -/
theorem handle_invalid_signature_500 (authorization : String)
    (db : List StreamRecord) :
    POST (some authorization) none db = (500, db) := rfl

theorem updateStreamByIngressId_none (iid : String)
    (f : StreamRecord → StreamRecord) (db : List StreamRecord)
    (h : ∀ r ∈ db, r.ingressId ≠ some iid) :
    updateStreamByIngressId iid f db = none := by
  induction db with
  | nil => rfl
  | cons a rest ih =>
    have ha : a.ingressId ≠ some iid := h a (List.mem_cons_self a rest)
    simp only [updateStreamByIngressId, if_neg ha]
    rw [ih (fun r hr => h r (List.mem_cons_of_mem a hr))]
    rfl

/-- Claim C3, settled against the code as written: an authenticated,
well-formed ingress_started or ingress_ended event whose ingress id
matches no StreamRecord makes the Prisma update throw P2025, caught by
the generic handler, so the route answers HTTP 500 (not the 200 the
specification requires) while still changing no record. -/
theorem handle_unknown_ingress_returns_500 (authorization iid : String)
    (db : List StreamRecord) (h : ∀ r ∈ db, r.ingressId ≠ some iid) :
    POST (some authorization) (some ⟨"ingress_started", some ⟨iid⟩⟩) db = (500, db) ∧
    POST (some authorization) (some ⟨"ingress_ended", some ⟨iid⟩⟩) db = (500, db) := by
  constructor <;>
    simp [POST, updateStreamByIngressId_none iid _ db h]

/-- Witness for C3: the concrete failing input, an authenticated
ingress_started delivery for an ingress id the empty table does not
track. -/
theorem handle_unknown_ingress_returns_500_witness :
    POST (some "Bearer sig") (some ⟨"ingress_started", some ⟨"in-unknown"⟩⟩) [] =
      (500, []) ∧
    POST (some "Bearer sig") (some ⟨"ingress_ended", some ⟨"in-unknown"⟩⟩) [] =
      (500, []) :=
  handle_unknown_ingress_returns_500 "Bearer sig" "in-unknown" []
    (by intro r hr; simp at hr)

theorem findStreamByIngressId_split (iid : String) (db : List StreamRecord)
    (r : StreamRecord) (h : findStreamByIngressId iid db = some r) :
    ∃ l1 l2, db = l1 ++ r :: l2 ∧ (∀ x ∈ l1, x.ingressId ≠ some iid) ∧
      r.ingressId = some iid := by
  induction db with
  | nil => simp [findStreamByIngressId] at h
  | cons a rest ih =>
    by_cases ha : a.ingressId = some iid
    · have he : findStreamByIngressId iid (a :: rest) = some a := by
        simp [findStreamByIngressId, List.find?_cons_of_pos, ha]
      rw [he] at h
      obtain rfl := Option.some.inj h
      exact ⟨[], rest, rfl, by intro x hx; simp at hx, ha⟩
    · have he : findStreamByIngressId iid (a :: rest) =
          findStreamByIngressId iid rest := by
        simp [findStreamByIngressId, List.find?_cons_of_neg, ha]
      rw [he] at h
      obtain ⟨l1, l2, hdb, hl1, hr⟩ := ih h
      refine ⟨a :: l1, l2, by rw [hdb]; rfl, ?_, hr⟩
      intro x hx
      rcases List.mem_cons.mp hx with hx | hx
      · subst hx; exact ha
      · exact hl1 x hx

theorem findStreamByIngressId_split_eval (iid : String) (l1 : List StreamRecord)
    (r : StreamRecord) (l2 : List StreamRecord)
    (h1 : ∀ x ∈ l1, x.ingressId ≠ some iid) (h2 : r.ingressId = some iid) :
    findStreamByIngressId iid (l1 ++ r :: l2) = some r := by
  induction l1 with
  | nil => simp [findStreamByIngressId, List.find?_cons_of_pos, h2]
  | cons a rest ih =>
    have ha : a.ingressId ≠ some iid := h1 a (List.mem_cons_self a rest)
    rw [List.cons_append]
    have he : findStreamByIngressId iid (a :: (rest ++ r :: l2)) =
        findStreamByIngressId iid (rest ++ r :: l2) := by
      simp [findStreamByIngressId, List.find?_cons_of_neg, ha]
    rw [he]
    exact ih (fun x hx => h1 x (List.mem_cons_of_mem a hx))

theorem updateStreamByIngressId_split_eval (iid : String)
    (f : StreamRecord → StreamRecord) (l1 : List StreamRecord)
    (r : StreamRecord) (l2 : List StreamRecord)
    (h1 : ∀ x ∈ l1, x.ingressId ≠ some iid) (h2 : r.ingressId = some iid) :
    updateStreamByIngressId iid f (l1 ++ r :: l2) =
      some (l1 ++ f r :: l2, f r) := by
  induction l1 with
  | nil => simp [updateStreamByIngressId, if_pos h2]
  | cons a rest ih =>
    have ha : a.ingressId ≠ some iid := h1 a (List.mem_cons_self a rest)
    rw [List.cons_append]
    simp only [updateStreamByIngressId, if_neg ha]
    rw [ih (fun x hx => h1 x (List.mem_cons_of_mem a hx))]
    rfl

/-- Claim C5: for a StreamRecord with a known ingress id, the webhook
transitions are plain boolean assignments: ingress_started sets is-live
to true, a following ingress_ended for the same id sets it to false, and
redelivering the same ingress_started leaves the state exactly as after
one delivery (self-idempotent transition). -/
theorem handle_lifecycle_idempotent (authorization iid : String)
    (db : List StreamRecord) (h : (findStreamByIngressId iid db).isSome) :
    ∃ r, findStreamByIngressId iid db = some r ∧
    POST (some authorization) (some ⟨"ingress_started", some ⟨iid⟩⟩) db =
      (200, (POST (some authorization) (some ⟨"ingress_started", some ⟨iid⟩⟩) db).2) ∧
    findStreamByIngressId iid
        (POST (some authorization) (some ⟨"ingress_started", some ⟨iid⟩⟩) db).2 =
      some { r with isLive := true } ∧
    findStreamByIngressId iid
        (POST (some authorization) (some ⟨"ingress_ended", some ⟨iid⟩⟩)
          (POST (some authorization) (some ⟨"ingress_started", some ⟨iid⟩⟩) db).2).2 =
      some { r with isLive := false } ∧
    POST (some authorization) (some ⟨"ingress_started", some ⟨iid⟩⟩)
        (POST (some authorization) (some ⟨"ingress_started", some ⟨iid⟩⟩) db).2 =
      POST (some authorization) (some ⟨"ingress_started", some ⟨iid⟩⟩) db := by
  obtain ⟨r, hr⟩ := Option.isSome_iff_exists.mp h
  obtain ⟨l1, l2, hdb, hl1, hid⟩ := findStreamByIngressId_split iid db r hr
  subst hdb
  have hpost1 : POST (some authorization) (some ⟨"ingress_started", some ⟨iid⟩⟩)
      (l1 ++ r :: l2) = (200, l1 ++ { r with isLive := true } :: l2) := by
    simp [POST,
      updateStreamByIngressId_split_eval iid (fun x => { x with isLive := true })
        l1 r l2 hl1 hid]
  have hid1 : (StreamRecord.mk r.id r.userId r.name r.ingressId r.serverUrl
      r.streamKey true r.isChatEnabled r.isChatDelayed
      r.isChatFollowersOnly).ingressId = some iid := hid
  have hpost2 : POST (some authorization) (some ⟨"ingress_ended", some ⟨iid⟩⟩)
      (l1 ++ { r with isLive := true } :: l2) =
      (200, l1 ++ { r with isLive := false } :: l2) := by
    simp [POST,
      updateStreamByIngressId_split_eval iid (fun x => { x with isLive := false })
        l1 { r with isLive := true } l2 hl1 hid1]
  have hpost3 : POST (some authorization) (some ⟨"ingress_started", some ⟨iid⟩⟩)
      (l1 ++ { r with isLive := true } :: l2) =
      (200, l1 ++ { r with isLive := true } :: l2) := by
    simp [POST,
      updateStreamByIngressId_split_eval iid (fun x => { x with isLive := true })
        l1 { r with isLive := true } l2 hl1 hid1]
  refine ⟨r, hr, ?_, ?_, ?_, ?_⟩
  · rw [hpost1]
  · rw [hpost1]
    exact findStreamByIngressId_split_eval iid l1 _ l2 hl1 hid1
  · rw [hpost1]
    rw [show (200, l1 ++ { r with isLive := true } :: l2).2 =
      l1 ++ { r with isLive := true } :: l2 from rfl]
    rw [hpost2]
    exact findStreamByIngressId_split_eval iid l1 _ l2 hl1 hid
  · rw [hpost1]
    rw [show (200, l1 ++ { r with isLive := true } :: l2).2 =
      l1 ++ { r with isLive := true } :: l2 from rfl]
    rw [hpost3]

/-- Witness for C5: a concrete table with one record known under ingress
id in1, run through started, ended and redelivered started. -/
theorem handle_lifecycle_idempotent_witness :
    (findStreamByIngressId "in1"
      [⟨"s1", "u1", "stream", some "in1", none, none, false, true, false, false⟩]).isSome ∧
    ∃ r, findStreamByIngressId "in1"
        [⟨"s1", "u1", "stream", some "in1", none, none, false, true, false, false⟩] =
        some r ∧
    POST (some "auth") (some ⟨"ingress_started", some ⟨"in1"⟩⟩)
        [⟨"s1", "u1", "stream", some "in1", none, none, false, true, false, false⟩] =
      (200, (POST (some "auth") (some ⟨"ingress_started", some ⟨"in1"⟩⟩)
        [⟨"s1", "u1", "stream", some "in1", none, none, false, true, false, false⟩]).2) ∧
    findStreamByIngressId "in1"
        (POST (some "auth") (some ⟨"ingress_started", some ⟨"in1"⟩⟩)
          [⟨"s1", "u1", "stream", some "in1", none, none, false, true, false, false⟩]).2 =
      some { r with isLive := true } ∧
    findStreamByIngressId "in1"
        (POST (some "auth") (some ⟨"ingress_ended", some ⟨"in1"⟩⟩)
          (POST (some "auth") (some ⟨"ingress_started", some ⟨"in1"⟩⟩)
            [⟨"s1", "u1", "stream", some "in1", none, none, false, true, false, false⟩]).2).2 =
      some { r with isLive := false } ∧
    POST (some "auth") (some ⟨"ingress_started", some ⟨"in1"⟩⟩)
        (POST (some "auth") (some ⟨"ingress_started", some ⟨"in1"⟩⟩)
          [⟨"s1", "u1", "stream", some "in1", none, none, false, true, false, false⟩]).2 =
      POST (some "auth") (some ⟨"ingress_started", some ⟨"in1"⟩⟩)
        [⟨"s1", "u1", "stream", some "in1", none, none, false, true, false, false⟩] :=
  ⟨by decide,
    handle_lifecycle_idempotent "auth" "in1"
      [⟨"s1", "u1", "stream", some "in1", none, none, false, true, false, false⟩]
      (by decide)⟩

/-- The livekit-server-sdk IngressInput values used by the repository. -/
inductive IngressInput
  | RTMP_INPUT
  | WHIP_INPUT
deriving DecidableEq, Repr

/-- The livekit TrackSource values used by the repository. -/
inductive TrackSource
  | CAMERA
  | MICROPHONE
deriving DecidableEq, Repr

/-- Video encoding presets of the sdk (the one the code uses plus another
member of the enum, so the preset choice is a real choice). -/
inductive IngressVideoEncodingPreset
  | H264_720P_30FPS_3_LAYERS
  | H264_1080P_30FPS_3_LAYERS
deriving DecidableEq, Repr

/-- Audio encoding presets of the sdk. -/
inductive IngressAudioEncodingPreset
  | OPUS_MONO_64KBS
  | OPUS_STEREO_96KBPS
deriving DecidableEq, Repr

/-- The video track request of CreateIngressOptions. -/
structure IngressVideoOptions where
  source : TrackSource
  preset : IngressVideoEncodingPreset
deriving DecidableEq, Repr

/-- The audio track request of CreateIngressOptions. -/
structure IngressAudioOptions where
  source : TrackSource
  preset : IngressAudioEncodingPreset
deriving DecidableEq, Repr

/-- CreateIngressOptions as built by createIngress; fields the code does
not set stay at their sdk defaults (false and undefined). -/
structure CreateIngressOptions where
  name : String
  roomName : String
  participantName : String
  participantIdentity : String
  bypassTranscoding : Bool := false
  video : Option IngressVideoOptions := none
  audio : Option IngressAudioOptions := none
deriving DecidableEq, Repr

/-- The options value built by createIngress (src/actions/user.ts lines
484 to 502): base identifiers from the authenticated user, then the
branch on the requested input mode. -/
def ingressOptions (ingressType : IngressInput) (selfId selfUsername : String) :
    CreateIngressOptions :=
  let options : CreateIngressOptions :=
    { name := selfUsername
      roomName := selfId
      participantName := selfUsername
      participantIdentity := selfId }
  if ingressType = IngressInput.WHIP_INPUT then
    { options with bypassTranscoding := true }
  else
    { options with
      video := some ⟨TrackSource.CAMERA,
        IngressVideoEncodingPreset.H264_1080P_30FPS_3_LAYERS⟩
      audio := some ⟨TrackSource.MICROPHONE,
        IngressAudioEncodingPreset.OPUS_STEREO_96KBPS⟩ }

/-- Claim C9: createIngress branches on the input mode. WHIP (the zero
transcode passthrough mode) requests bypassTranscoding and no track
options; any other mode (push encoder) requests a CAMERA track with the
fixed H264 1080p 30fps 3 layer preset and a MICROPHONE track with the
fixed stereo opus 96 kbps preset, without bypassing transcoding. -/
theorem createIngress_mode_options (selfId selfUsername : String) :
    (ingressOptions IngressInput.WHIP_INPUT selfId selfUsername).bypassTranscoding
        = true ∧
    (ingressOptions IngressInput.WHIP_INPUT selfId selfUsername).video = none ∧
    (ingressOptions IngressInput.WHIP_INPUT selfId selfUsername).audio = none ∧
    (ingressOptions IngressInput.RTMP_INPUT selfId selfUsername).bypassTranscoding
        = false ∧
    (ingressOptions IngressInput.RTMP_INPUT selfId selfUsername).video =
      some ⟨TrackSource.CAMERA,
        IngressVideoEncodingPreset.H264_1080P_30FPS_3_LAYERS⟩ ∧
    (ingressOptions IngressInput.RTMP_INPUT selfId selfUsername).audio =
      some ⟨TrackSource.MICROPHONE,
        IngressAudioEncodingPreset.OPUS_STEREO_96KBPS⟩ :=
  ⟨rfl, rfl, rfl, rfl, rfl, rfl⟩

/-- The create-ingress response of the provider, as used by the code:
proto string fields, absent values being the empty string (JS falsy, what
the truthiness checks on url and streamKey test). -/
structure CreatedIngress where
  ingressId : String
  url : String
  streamKey : String
deriving DecidableEq, Repr

/-- Prisma db.stream.update with a unique where clause on userId: same
semantics as updateStreamByIngressId, none modelling the thrown P2025. -/
def updateStreamByUserId (uid : String) (f : StreamRecord → StreamRecord) :
    List StreamRecord → Option (List StreamRecord × StreamRecord)
  | [] => none
  | r :: rest =>
    if r.userId = uid then some (f r :: rest, f r)
    else (updateStreamByUserId uid f rest).map (fun t => (r :: t.1, t.2))

/-- ingressClient.listIngress with a roomName filter: the provider
returns the ingresses whose room is the given one. -/
def listIngress (roomName : String) (remote : List IngressInfo) :
    List IngressInfo :=
  remote.filter (fun i => i.roomName = roomName)

/-- roomService.listRooms([hostIdentity]): the rooms whose name is in the
given singleton. -/
def listRooms (hostIdentity : String) (rooms : List Room) : List Room :=
  rooms.filter (fun r => r.name = hostIdentity)

/-- An ingress is owned by an identity when its room name or its
participant identity equals the identity (the reconciler check). -/
def ownedBy (identity : String) (i : IngressInfo) : Bool :=
  i.roomName = identity || i.participantIdentity = identity

/-- The ingress deletes of a reset run that reached the provider and
succeeded: all attempts on success; on failure the last attempt is the
one whose RPC was rejected, so it did not go through. -/
def succeededIngressDeletes (out : ResetOutcome) : List IngressInfo :=
  if out.success then out.deletedIngresses else out.deletedIngresses.dropLast

/-- Same as succeededIngressDeletes for room deletes. -/
def succeededRoomDeletes (out : ResetOutcome) : List Room :=
  if out.success then out.deletedRooms else out.deletedRooms.dropLast

/-- The effect of one resetIngresses call on the remote provider state:
list both resource kinds, run the sweeps of resetIngresses on the
listings, and remove from the state exactly the resources whose delete
RPC succeeded. Returns the remaining ingresses, the remaining rooms, and
whether resetIngresses returned without throwing. -/
def reconcileRemote (hostIdentity : String) (delIngressOk delRoomOk : String → Bool)
    (remote : List IngressInfo) (rooms : List Room) :
    List IngressInfo × List Room × Bool :=
  let out := resetIngresses hostIdentity delIngressOk delRoomOk
    (listIngress hostIdentity remote) (listRooms hostIdentity rooms)
  (remote.filter (fun i =>
      !((succeededIngressDeletes out).any (fun d => d.ingressId = i.ingressId))),
   rooms.filter (fun r =>
      !((succeededRoomDeletes out).any (fun d => d.name = r.name))),
   out.success)

/-- The failure modes of createIngress after its catch block: an error
thrown by the reconcile step (a provider delete that failed), the two
explicit LiveKit validation errors, and the Prisma P2025 translated to
the stream-not-found message. Messages of provider errors are abstracted
to the catch-all text. -/
inductive ProvisionError
  | reconcileFailed
  | noResponse
  | missingCredentials
  | streamNotFound
deriving DecidableEq, Repr

/-- The user facing message produced by the catch block of createIngress
for each failure mode. -/
def provisionErrorMessage : ProvisionError → String
  | .reconcileFailed => "Failed to create stream ingress"
  | .noResponse => "LiveKit failed to create ingress - no response received"
  | .missingCredentials => "LiveKit created ingress but did not provide URL or stream key"
  | .streamNotFound => "Stream not found in database. Please contact support."

/-- The state a provision call touches: the provider ingresses and
rooms, and the stream table. -/
structure ProvisionState where
  remote : List IngressInfo
  rooms : List Room
  db : List StreamRecord
deriving DecidableEq, Repr

/-- createIngress (src/actions/user.ts lines 478 to 561), shallowly
embedded with explicit state. Inputs: the requested mode, the
authenticated user (id and username from getSelf), the delete outcome
oracles, the provider response to the create call (none when the call
returns nothing), and the state. Steps as in the source: reconcile
unconditionally, build options, call the provider create (the created
resource joins the remote state with the requested room and participant,
even when its credentials are incomplete), validate response then
credentials, and only then persist ingressId, serverUrl and streamKey on
the stream record of the caller. -/
def createIngress (ingressType : IngressInput) (selfId selfUsername : String)
    (delIngressOk delRoomOk : String → Bool)
    (providerResponse : Option CreatedIngress) (s : ProvisionState) :
    Except ProvisionError CreatedIngress × ProvisionState :=
  let rr := reconcileRemote selfId delIngressOk delRoomOk s.remote s.rooms
  if rr.2.2 then
    let opts := ingressOptions ingressType selfId selfUsername
    match providerResponse with
    | none => (.error .noResponse, ⟨rr.1, rr.2.1, s.db⟩)
    | some ing =>
      let remote2 := rr.1 ++ [⟨ing.ingressId, opts.roomName, opts.participantIdentity⟩]
      if ing.url = "" ∨ ing.streamKey = "" then
        (.error .missingCredentials, ⟨remote2, rr.2.1, s.db⟩)
      else
        match updateStreamByUserId selfId
            (fun r => { r with ingressId := some ing.ingressId,
                               serverUrl := some ing.url,
                               streamKey := some ing.streamKey }) s.db with
        | none => (.error .streamNotFound, ⟨remote2, rr.2.1, s.db⟩)
        | some t => (.ok ing, ⟨remote2, rr.2.1, t.1⟩)
  else (.error .reconcileFailed, ⟨rr.1, rr.2.1, s.db⟩)

/-- Claim C4: when the provider returns no result, or a result lacking a
URL or a stream key, createIngress fails with an error and the stream
table is exactly as before: the validations of step 6 run strictly before
the persist of step 7. -/
theorem provision_incomplete_leaves_record_unchanged
    (ingressType : IngressInput) (selfId selfUsername : String)
    (delIngressOk delRoomOk : String → Bool)
    (providerResponse : Option CreatedIngress) (s : ProvisionState)
    (h : providerResponse = none ∨
      ∃ ing, providerResponse = some ing ∧ (ing.url = "" ∨ ing.streamKey = "")) :
    ∃ e, (createIngress ingressType selfId selfUsername delIngressOk delRoomOk
        providerResponse s).1 = .error e ∧
      (createIngress ingressType selfId selfUsername delIngressOk delRoomOk
        providerResponse s).2.db = s.db := by
  by_cases hrc : (reconcileRemote selfId delIngressOk delRoomOk s.remote s.rooms).2.2
  · rcases h with rfl | ⟨ing, rfl, hbad⟩
    · refine ⟨.noResponse, ?_, ?_⟩ <;>
        simp only [createIngress, if_pos hrc]
    · refine ⟨.missingCredentials, ?_, ?_⟩ <;>
        simp only [createIngress, if_pos hrc, if_pos hbad]
  · refine ⟨.reconcileFailed, ?_, ?_⟩ <;>
      simp only [createIngress, if_neg hrc]

/-- Witness for C4: a concrete provision run where the provider answers
with an ingress lacking a stream key; the call errors and the stream
table survives unchanged. -/
theorem provision_incomplete_leaves_record_unchanged_witness :
    (some (CreatedIngress.mk "in9" "rtmp-url" "") = none ∨
      ∃ ing, some (CreatedIngress.mk "in9" "rtmp-url" "") = some ing ∧
        (ing.url = "" ∨ ing.streamKey = "")) ∧
    ∃ e, (createIngress IngressInput.RTMP_INPUT "alice" "alice-name"
        (fun _ => true) (fun _ => true)
        (some ⟨"in9", "rtmp-url", ""⟩)
        ⟨[], [], [⟨"s1", "alice", "stream", none, none, none, false, true, false, false⟩]⟩).1
        = .error e ∧
      (createIngress IngressInput.RTMP_INPUT "alice" "alice-name"
        (fun _ => true) (fun _ => true)
        (some ⟨"in9", "rtmp-url", ""⟩)
        ⟨[], [], [⟨"s1", "alice", "stream", none, none, none, false, true, false, false⟩]⟩).2.db
        = [⟨"s1", "alice", "stream", none, none, none, false, true, false, false⟩] :=
  ⟨Or.inr ⟨⟨"in9", "rtmp-url", ""⟩, rfl, Or.inr rfl⟩,
    provision_incomplete_leaves_record_unchanged IngressInput.RTMP_INPUT
      "alice" "alice-name" (fun _ => true) (fun _ => true)
      (some ⟨"in9", "rtmp-url", ""⟩)
      ⟨[], [], [⟨"s1", "alice", "stream", none, none, none, false, true, false, false⟩]⟩
      (Or.inr ⟨⟨"in9", "rtmp-url", ""⟩, rfl, Or.inr rfl⟩)⟩

theorem updateStreamByUserId_eq_some (uid : String)
    (f : StreamRecord → StreamRecord) (db db' : List StreamRecord)
    (u : StreamRecord) (h : updateStreamByUserId uid f db = some (db', u)) :
    ∃ l1 r l2, db = l1 ++ r :: l2 ∧ (∀ x ∈ l1, x.userId ≠ uid) ∧
      r.userId = uid ∧ db' = l1 ++ f r :: l2 ∧ u = f r := by
  induction db generalizing db' u with
  | nil => simp [updateStreamByUserId] at h
  | cons a rest ih =>
    by_cases ha : a.userId = uid
    · simp only [updateStreamByUserId, if_pos ha, Option.some.injEq,
        Prod.mk.injEq] at h
      exact ⟨[], a, rest, rfl, by intro x hx; simp at hx, ha,
        h.1.symm, h.2.symm⟩
    · simp only [updateStreamByUserId, if_neg ha, Option.map_eq_some'] at h
      obtain ⟨t, ht, hmap⟩ := h
      rw [Prod.mk.injEq] at hmap
      obtain ⟨hmap1, hmap2⟩ := hmap
      obtain ⟨l1, r, l2, hdb, hl1, hr, hdb', hu⟩ := ih t.1 t.2 (by rw [ht])
      refine ⟨a :: l1, r, l2, by simp [hdb], ?_, hr, ?_, ?_⟩
      · intro x hx
        rcases List.mem_cons.mp hx with hx | hx
        · subst hx; exact ha
        · exact hl1 x hx
      · rw [← hmap1, hdb']; rfl
      · rw [← hmap2]; exact hu

/-- Claim C10: a successful provision returns exactly the provider object
and persists exactly its credentials: the stream record of the caller
gets its ingressId, serverUrl and streamKey replaced by the values of the
returned ingress, every other field of that record (in particular
is-live) keeps its value, and every other record is untouched. -/
theorem provision_writes_exactly_credentials
    (ingressType : IngressInput) (selfId selfUsername : String)
    (delIngressOk delRoomOk : String → Bool)
    (providerResponse : Option CreatedIngress) (s : ProvisionState)
    (ing : CreatedIngress) (s' : ProvisionState)
    (hrun : createIngress ingressType selfId selfUsername delIngressOk delRoomOk
        providerResponse s = (.ok ing, s')) :
    providerResponse = some ing ∧
    ∃ l1 r l2, s.db = l1 ++ r :: l2 ∧ (∀ x ∈ l1, x.userId ≠ selfId) ∧
      r.userId = selfId ∧
      s'.db = l1 ++ { r with ingressId := some ing.ingressId,
                             serverUrl := some ing.url,
                             streamKey := some ing.streamKey } :: l2 ∧
      ({ r with ingressId := some ing.ingressId, serverUrl := some ing.url,
                streamKey := some ing.streamKey } : StreamRecord).isLive
        = r.isLive := by
  by_cases hrc : (reconcileRemote selfId delIngressOk delRoomOk s.remote s.rooms).2.2
  · cases providerResponse with
    | none =>
      simp only [createIngress, if_pos hrc] at hrun
      exact absurd (congrArg Prod.fst hrun) (by simp)
    | some ing0 =>
      simp only [createIngress, if_pos hrc] at hrun
      by_cases hbad : ing0.url = "" ∨ ing0.streamKey = ""
      · rw [if_pos hbad] at hrun
        exact absurd (congrArg Prod.fst hrun) (by simp)
      · rw [if_neg hbad] at hrun
        cases hupd : updateStreamByUserId selfId
            (fun r => { r with ingressId := some ing0.ingressId,
                               serverUrl := some ing0.url,
                               streamKey := some ing0.streamKey }) s.db with
        | none =>
          rw [hupd] at hrun
          exact absurd (congrArg Prod.fst hrun) (by simp)
        | some t =>
          rw [hupd] at hrun
          simp only [Prod.mk.injEq, Except.ok.injEq] at hrun
          obtain ⟨hing, hst⟩ := hrun
          subst hing
          obtain ⟨l1, r, l2, hdb, hl1, hr, hdb', hu⟩ :=
            updateStreamByUserId_eq_some selfId _ s.db t.1 t.2
              (by rw [hupd])
          refine ⟨rfl, l1, r, l2, hdb, hl1, hr, ?_, rfl⟩
          rw [← hst]
          exact hdb'
  · cases providerResponse with
    | none =>
      simp only [createIngress, if_neg hrc] at hrun
      exact absurd (congrArg Prod.fst hrun) (by simp)
    | some ing0 =>
      simp only [createIngress, if_neg hrc] at hrun
      exact absurd (congrArg Prod.fst hrun) (by simp)

/-- Witness for C10: a concrete successful provision against a one record
table; the theorem instantiated there. -/
theorem provision_writes_exactly_credentials_witness :
    (some (CreatedIngress.mk "in7" "whip-url" "sk-1") = some ⟨"in7", "whip-url", "sk-1"⟩) ∧
    ∃ l1 r l2,
      ([⟨"s1", "alice", "stream", none, none, none, true, true, false, false⟩] :
          List StreamRecord) = l1 ++ r :: l2 ∧
      (∀ x ∈ l1, x.userId ≠ "alice") ∧
      r.userId = "alice" ∧
      ((createIngress IngressInput.WHIP_INPUT "alice" "alice-name"
          (fun _ => true) (fun _ => true) (some ⟨"in7", "whip-url", "sk-1"⟩)
          ⟨[], [], [⟨"s1", "alice", "stream", none, none, none, true, true, false, false⟩]⟩).2).db =
        l1 ++ { r with ingressId := some "in7", serverUrl := some "whip-url",
                       streamKey := some "sk-1" } :: l2 ∧
      ({ r with ingressId := some "in7", serverUrl := some "whip-url",
                streamKey := some "sk-1" } : StreamRecord).isLive = r.isLive := by
  have h := provision_writes_exactly_credentials IngressInput.WHIP_INPUT
    "alice" "alice-name" (fun _ => true) (fun _ => true)
    (some ⟨"in7", "whip-url", "sk-1"⟩)
    ⟨[], [], [⟨"s1", "alice", "stream", none, none, none, true, true, false, false⟩]⟩
    ⟨"in7", "whip-url", "sk-1"⟩
    ((createIngress IngressInput.WHIP_INPUT "alice" "alice-name"
      (fun _ => true) (fun _ => true) (some ⟨"in7", "whip-url", "sk-1"⟩)
      ⟨[], [], [⟨"s1", "alice", "stream", none, none, none, true, true, false, false⟩]⟩).2)
    (by rfl)
  exact ⟨rfl, h.2⟩

theorem ingressSweep_complete (host : String) (delOk : String → Bool)
    (l : List IngressInfo) (hs : (ingressSweep host delOk l).2 = true) :
    ∀ i ∈ l, i.ingressId ≠ "" →
      (i.roomName = host ∨ i.participantIdentity = host) →
      i ∈ (ingressSweep host delOk l).1 := by
  induction l with
  | nil => intro i hi; simp at hi
  | cons a rest ih =>
    intro i hi hid hown
    rcases List.mem_cons.mp hi with rfl | hi
    · by_cases hok : delOk i.ingressId
      · simp only [ingressSweep, if_pos hid, if_pos hown, if_pos hok]
        exact List.mem_cons_self i _
      · exfalso
        simp only [ingressSweep, if_pos hid, if_pos hown, if_neg hok] at hs
        exact absurd hs (by decide)
    · by_cases hid2 : a.ingressId ≠ ""
      · by_cases hown2 : a.roomName = host ∨ a.participantIdentity = host
        · by_cases hok : delOk a.ingressId
          · simp only [ingressSweep, if_pos hid2, if_pos hown2, if_pos hok]
              at hs ⊢
            exact List.mem_cons_of_mem a (ih hs i hi hid hown)
          · exfalso
            simp only [ingressSweep, if_pos hid2, if_pos hown2, if_neg hok] at hs
            exact absurd hs (by decide)
        · simp only [ingressSweep, if_pos hid2, if_neg hown2] at hs ⊢
          exact ih hs i hi hid hown
      · simp only [ingressSweep, if_neg hid2] at hs ⊢
        exact ih hs i hi hid hown

theorem resetIngresses_success (host : String) (okI okR : String → Bool)
    (ings : List IngressInfo) (rooms : List Room)
    (hs : (resetIngresses host okI okR ings rooms).success = true) :
    (ingressSweep host okI ings).2 = true ∧
    (resetIngresses host okI okR ings rooms).deletedIngresses =
      (ingressSweep host okI ings).1 := by
  by_cases h : (ingressSweep host okI ings).2
  · unfold resetIngresses
    simp only [if_pos h]
    exact ⟨h, by trivial⟩
  · exfalso
    unfold resetIngresses at hs
    simp only [if_neg h] at hs
    exact absurd hs (by decide)

theorem reconcileRemote_success_no_owned (host : String)
    (delIngressOk delRoomOk : String → Bool)
    (remote : List IngressInfo) (rooms : List Room)
    (hids : ∀ i ∈ remote, i.ingressId ≠ "")
    (hroom : ∀ i ∈ remote, i.participantIdentity = host → i.roomName = host)
    (hs : (reconcileRemote host delIngressOk delRoomOk remote rooms).2.2 = true) :
    ∀ i ∈ (reconcileRemote host delIngressOk delRoomOk remote rooms).1,
      ownedBy host i = false := by
  intro i hi
  have hsucc : (resetIngresses host delIngressOk delRoomOk
      (listIngress host remote) (listRooms host rooms)).success = true := hs
  obtain ⟨hsw, hdel⟩ := resetIngresses_success host delIngressOk delRoomOk
    (listIngress host remote) (listRooms host rooms) hsucc
  have hi' : i ∈ remote.filter (fun j =>
      !((succeededIngressDeletes (resetIngresses host delIngressOk delRoomOk
          (listIngress host remote) (listRooms host rooms))).any
        (fun d => d.ingressId = j.ingressId))) := hi
  rw [List.mem_filter] at hi'
  obtain ⟨hmem, hpred⟩ := hi'
  rw [Bool.not_eq_true'] at hpred
  by_contra hcon
  rw [Bool.not_eq_false] at hcon
  have howned : i.roomName = host := by
    have hcon' : i.roomName = host ∨ i.participantIdentity = host := by
      simpa [ownedBy] using hcon
    rcases hcon' with h1 | h1
    · exact h1
    · exact hroom i hmem h1
  have hlisted : i ∈ listIngress host remote := by
    unfold listIngress
    rw [List.mem_filter]
    exact ⟨hmem, by rw [howned]; simp⟩
  have hin : i ∈ (ingressSweep host delIngressOk (listIngress host remote)).1 :=
    ingressSweep_complete host delIngressOk (listIngress host remote) hsw i
      hlisted (hids i hmem) (Or.inl howned)
  rw [← hdel] at hin
  have hany : ((succeededIngressDeletes (resetIngresses host delIngressOk delRoomOk
      (listIngress host remote) (listRooms host rooms))).any
        (fun d => d.ingressId = i.ingressId)) = true := by
    unfold succeededIngressDeletes
    rw [if_pos hsucc, List.any_eq_true]
    exact ⟨i, hin, by simp⟩
  rw [hany] at hpred
  exact absurd hpred (by decide)

theorem ingressOptions_roomName (ingressType : IngressInput)
    (selfId selfUsername : String) :
    (ingressOptions ingressType selfId selfUsername).roomName = selfId ∧
    (ingressOptions ingressType selfId selfUsername).participantIdentity = selfId := by
  cases ingressType <;> exact ⟨rfl, rfl⟩

/-- Claim C6: createIngress reconciles the caller identity before the
provider create (a failed reconcile aborts the provision), so after every
successful provision at most one ingress owned by the identity exists,
provided the remote state only holds well-formed resources (nonempty ids,
and resources owned through their participant identity live in the room
named by that identity, as every resource this system creates does). -/
theorem provision_at_most_one_ingress
    (ingressType : IngressInput) (selfId selfUsername : String)
    (delIngressOk delRoomOk : String → Bool)
    (providerResponse : Option CreatedIngress) (s : ProvisionState)
    (ing : CreatedIngress) (s' : ProvisionState)
    (hids : ∀ i ∈ s.remote, i.ingressId ≠ "")
    (hroom : ∀ i ∈ s.remote, i.participantIdentity = selfId → i.roomName = selfId)
    (hrun : createIngress ingressType selfId selfUsername delIngressOk delRoomOk
        providerResponse s = (.ok ing, s')) :
    (s'.remote.filter (fun i => ownedBy selfId i)).length ≤ 1 := by
  by_cases hrc : (reconcileRemote selfId delIngressOk delRoomOk s.remote s.rooms).2.2
  · cases providerResponse with
    | none =>
      simp only [createIngress, if_pos hrc] at hrun
      exact absurd (congrArg Prod.fst hrun) (by simp)
    | some ing0 =>
      simp only [createIngress, if_pos hrc] at hrun
      by_cases hbad : ing0.url = "" ∨ ing0.streamKey = ""
      · rw [if_pos hbad] at hrun
        exact absurd (congrArg Prod.fst hrun) (by simp)
      · rw [if_neg hbad] at hrun
        cases hupd : updateStreamByUserId selfId
            (fun r => { r with ingressId := some ing0.ingressId,
                               serverUrl := some ing0.url,
                               streamKey := some ing0.streamKey }) s.db with
        | none =>
          rw [hupd] at hrun
          exact absurd (congrArg Prod.fst hrun) (by simp)
        | some t =>
          rw [hupd] at hrun
          simp only [Prod.mk.injEq, Except.ok.injEq] at hrun
          obtain ⟨hing, hst⟩ := hrun
          have hnoowned := reconcileRemote_success_no_owned selfId
            delIngressOk delRoomOk s.remote s.rooms hids hroom hrc
          have hfilter : ((reconcileRemote selfId delIngressOk delRoomOk
              s.remote s.rooms).1.filter (fun i => ownedBy selfId i)) = [] := by
            rw [List.filter_eq_nil_iff]
            intro i hi
            rw [hnoowned i hi]
            simp
          have hremote : s'.remote =
              (reconcileRemote selfId delIngressOk delRoomOk s.remote s.rooms).1 ++
              [⟨ing0.ingressId,
                (ingressOptions ingressType selfId selfUsername).roomName,
                (ingressOptions ingressType selfId selfUsername).participantIdentity⟩] := by
            rw [← hst]
          rw [hremote, List.filter_append, hfilter, List.nil_append]
          have hone : ownedBy selfId
              ⟨ing0.ingressId,
                (ingressOptions ingressType selfId selfUsername).roomName,
                (ingressOptions ingressType selfId selfUsername).participantIdentity⟩
              = true := by
            unfold ownedBy
            rw [(ingressOptions_roomName ingressType selfId selfUsername).1]
            simp
          simp [hone]
  · cases providerResponse with
    | none =>
      simp only [createIngress, if_neg hrc] at hrun
      exact absurd (congrArg Prod.fst hrun) (by simp)
    | some ing0 =>
      simp only [createIngress, if_neg hrc] at hrun
      exact absurd (congrArg Prod.fst hrun) (by simp)

/-- Witness for C6: a successful provision over a remote state holding a
stale owned ingress and a foreign one; the theorem instantiated there. -/
theorem provision_at_most_one_ingress_witness :
    (∀ i ∈ [IngressInfo.mk "old1" "alice" "alice", IngressInfo.mk "b1" "bob" "bob"],
      i.ingressId ≠ "") ∧
    (∀ i ∈ [IngressInfo.mk "old1" "alice" "alice", IngressInfo.mk "b1" "bob" "bob"],
      i.participantIdentity = "alice" → i.roomName = "alice") ∧
    (((createIngress IngressInput.WHIP_INPUT "alice" "alice-name"
        (fun _ => true) (fun _ => true) (some ⟨"in7", "whip-url", "sk-1"⟩)
        ⟨[⟨"old1", "alice", "alice"⟩, ⟨"b1", "bob", "bob"⟩], [⟨"alice"⟩],
          [⟨"s1", "alice", "stream", none, none, none, false, true, false, false⟩]⟩).2).remote.filter
      (fun i => ownedBy "alice" i)).length ≤ 1 :=
  ⟨by decide, by decide,
    provision_at_most_one_ingress IngressInput.WHIP_INPUT "alice" "alice-name"
      (fun _ => true) (fun _ => true) (some ⟨"in7", "whip-url", "sk-1"⟩)
      ⟨[⟨"old1", "alice", "alice"⟩, ⟨"b1", "bob", "bob"⟩], [⟨"alice"⟩],
        [⟨"s1", "alice", "stream", none, none, none, false, true, false, false⟩]⟩
      ⟨"in7", "whip-url", "sk-1"⟩
      ((createIngress IngressInput.WHIP_INPUT "alice" "alice-name"
        (fun _ => true) (fun _ => true) (some ⟨"in7", "whip-url", "sk-1"⟩)
        ⟨[⟨"old1", "alice", "alice"⟩, ⟨"b1", "bob", "bob"⟩], [⟨"alice"⟩],
          [⟨"s1", "alice", "stream", none, none, none, false, true, false, false⟩]⟩).2)
      (by decide) (by decide) (by rfl)⟩

end SwitchFun
